import Mathlib

/-!
Verification of the season lifecycle core of `hsc-auth-api`.

The JavaScript repo layer (`createSeasonsRepo`) is shallowly embedded here:
the `seasons` table is a `List Row`, each SQL statement becomes a pure
function on that list, and JS objects `{ ok, error, detail }` become the
`TxResult` structure.  The slug normalizer `normalizeSlug` from `index.js`
is embedded over `List Char`.
-/

namespace HscAuth

/-- Season status: the `status` enum of the seasons table (`draft`,
`active`, `closed`). -/
inductive Status where
  | draft
  | active
  | closed
deriving DecidableEq, Repr

/-- One row of the `seasons` table.  DB `DATETIME`/`TIMESTAMP` columns are
modelled as `Int`; the nullable `description` column as `Option String`. -/
structure Row where
  id : Nat
  slug : String
  name : String
  description : Option String
  startAt : Int
  endAt : Int
  status : Status
  createdAt : Int
  updatedAt : Int
deriving DecidableEq, Repr

/-- The JS result object of `activateSeasonTx`: `{ ok, error?, detail? }`. -/
structure TxResult where
  ok : Bool
  error : Option String
  detail : Option String
deriving DecidableEq, Repr

/-- `SELECT ... FROM seasons WHERE slug = ? LIMIT 1` followed by
`rows[0] ?? null`: the first row with the given slug, if any. -/
def findBySlug (table : List Row) (slug : String) : Option Row :=
  (table.filter fun r => r.slug = slug).head?

/-- The demote statement of `activateSeasonTx`:
`UPDATE seasons SET status = 'draft' WHERE status = 'active' AND slug <> ?`. -/
def demoteOthers (table : List Row) (slug : String) : List Row :=
  table.map fun r =>
    if r.status = Status.active ∧ r.slug ≠ slug then { r with status := Status.draft } else r

/-- The promote statement of `activateSeasonTx`:
`UPDATE seasons SET status = 'active' WHERE slug = ?`. -/
def promote (table : List Row) (slug : String) : List Row :=
  table.map fun r => if r.slug = slug then { r with status := Status.active } else r

/-- `activateSeasonTx(slug)` from the seasons repo module, run to completion
with no storage fault: lock and read the target by slug, guard on
not-found and closed (rolling back leaves the table unchanged), then
demote other active rows to draft and promote the target, and commit.
Returns the table after the call together with the JS result object. -/
def activateSeasonTx (table : List Row) (slug : String) : List Row × TxResult :=
  match findBySlug table slug with
  | none => (table, ⟨false, some "season_not_found", none⟩)
  | some target =>
    if target.status = Status.closed then
      (table, ⟨false, some "season_closed", none⟩)
    else
      (promote (demoteOthers table slug) slug, ⟨true, none, none⟩)

/-- Statement indices of `activateSeasonTx` for fault modelling:
0 `beginTransaction`, 1 target `SELECT ... FOR UPDATE`,
2 active-rows `SELECT ... FOR UPDATE`, 3 demote `UPDATE`,
4 promote `UPDATE`, 5 `commit`. -/
def faultAt (fault : Option (Nat × String)) (k : Nat) : Option String :=
  match fault with
  | some p => if p.1 = k then some p.2 else none
  | none => none

/-- `activateSeasonTx` with an injected storage fault: if the statement
with the given index is reached, it throws with the given message, the
`catch` block rolls the transaction back (so the table is unchanged) and
the call returns `{ ok: false, error: "tx_failed", detail }`.  The third
component records whether `commit` ran. -/
def activateSeasonTxF (fault : Option (Nat × String)) (table : List Row) (slug : String) :
    List Row × TxResult × Bool :=
  match faultAt fault 0 with
  | some m => (table, ⟨false, some "tx_failed", some m⟩, false)
  | none =>
  match faultAt fault 1 with
  | some m => (table, ⟨false, some "tx_failed", some m⟩, false)
  | none =>
  match findBySlug table slug with
  | none => (table, ⟨false, some "season_not_found", none⟩, false)
  | some target =>
  if target.status = Status.closed then
    (table, ⟨false, some "season_closed", none⟩, false)
  else
  match faultAt fault 2 with
  | some m => (table, ⟨false, some "tx_failed", some m⟩, false)
  | none =>
  match faultAt fault 3 with
  | some m => (table, ⟨false, some "tx_failed", some m⟩, false)
  | none =>
  match faultAt fault 4 with
  | some m => (table, ⟨false, some "tx_failed", some m⟩, false)
  | none =>
  match faultAt fault 5 with
  | some m => (table, ⟨false, some "tx_failed", some m⟩, false)
  | none => (promote (demoteOthers table slug) slug, ⟨true, none, none⟩, true)

/-- A statement index is reached by the execution on a given table and
slug: `begin` and the target read always run; the later statements run
only once both guards pass. -/
def reaches (table : List Row) (slug : String) (k : Nat) : Prop :=
  k ≤ 1 ∨ ∃ t, findBySlug table slug = some t ∧ t.status ≠ Status.closed

/-- Number of rows with status `active`. -/
def activeCount (table : List Row) : Nat :=
  table.countP fun r => r.status = Status.active

/-- Slugs are pairwise distinct (the seasons table declares `slug` as a
unique key). -/
def UniqueSlugs (table : List Row) : Prop :=
  table.Pairwise fun a b => a.slug ≠ b.slug

end HscAuth

namespace HscAuth

theorem activate_eq_of_not_found (table : List Row) (slug : String)
    (h : findBySlug table slug = none) :
    activateSeasonTx table slug = (table, ⟨false, some "season_not_found", none⟩) := by
  simp [activateSeasonTx, h]

/-- C4: Activating a slug that matches no season row returns
`{ ok: false, error: "season_not_found" }` and leaves the table — hence
every row — unchanged. -/
theorem activate_not_found (table : List Row) (slug : String)
    (h : findBySlug table slug = none) :
    activateSeasonTx table slug = (table, ⟨false, some "season_not_found", none⟩) :=
  activate_eq_of_not_found table slug h

theorem activate_not_found_witness :
    findBySlug [] "winter" = none ∧
      activateSeasonTx [] "winter" = ([], ⟨false, some "season_not_found", none⟩) :=
  ⟨rfl, activate_not_found [] "winter" rfl⟩

theorem activate_eq_of_closed (table : List Row) (slug : String) (t : Row)
    (hf : findBySlug table slug = some t) (hc : t.status = Status.closed) :
    activateSeasonTx table slug = (table, ⟨false, some "season_closed", none⟩) := by
  simp [activateSeasonTx, hf, hc]

/-- C3: Activating a season whose current status is `closed` rolls back,
returns `{ ok: false, error: "season_closed" }`, and leaves the table —
hence the status of every season — unchanged. -/
theorem activate_closed (table : List Row) (slug : String) (t : Row)
    (hf : findBySlug table slug = some t) (hc : t.status = Status.closed) :
    activateSeasonTx table slug = (table, ⟨false, some "season_closed", none⟩) :=
  activate_eq_of_closed table slug t hf hc

/-- A closed season row used by concrete witnesses. -/
def rowC : Row :=
  ⟨3, "c", "C", none, 30, 40, Status.closed, 0, 0⟩

theorem activate_closed_witness :
    findBySlug [rowC] "c" = some rowC ∧ rowC.status = Status.closed ∧
      activateSeasonTx [rowC] "c" = ([rowC], ⟨false, some "season_closed", none⟩) :=
  ⟨rfl, rfl, activate_closed [rowC] "c" rowC rfl rfl⟩

/-- The per-row effect of a successful activation: the demote update
followed by the promote update. -/
def activateStep (slug : String) (r : Row) : Row :=
  if r.slug = slug then { r with status := Status.active }
  else if r.status = Status.active then { r with status := Status.draft }
  else r

theorem activateStep_slug (slug : String) (r : Row) : (activateStep slug r).slug = r.slug := by
  unfold activateStep
  split
  · rfl
  · split <;> rfl

theorem promote_demoteOthers (table : List Row) (slug : String) :
    promote (demoteOthers table slug) slug = table.map (activateStep slug) := by
  unfold promote demoteOthers
  rw [List.map_map]
  refine List.map_congr_left fun r _ => ?_
  by_cases hs : r.slug = slug
  · simp [Function.comp, activateStep, hs]
  · by_cases ha : r.status = Status.active
    · simp [Function.comp, activateStep, hs, ha]
    · simp [Function.comp, activateStep, hs, ha]

theorem activate_found_ok (table : List Row) (slug : String) (t : Row)
    (hf : findBySlug table slug = some t) (hc : t.status ≠ Status.closed) :
    activateSeasonTx table slug = (table.map (activateStep slug), ⟨true, none, none⟩) := by
  simp [activateSeasonTx, hf, hc, promote_demoteOthers]

theorem head?_mem {α : Type} {l : List α} {a : α} (h : l.head? = some a) : a ∈ l := by
  cases l with
  | nil => simp at h
  | cons b l => simp at h; simp [h]

theorem findBySlug_mem {table : List Row} {slug : String} {t : Row}
    (h : findBySlug table slug = some t) : t ∈ table ∧ t.slug = slug := by
  have ht := head?_mem h
  simp only [List.mem_filter] at ht
  exact ⟨ht.1, by simpa using ht.2⟩

theorem filter_slug_of_unique {table : List Row} {r : Row}
    (hu : UniqueSlugs table) (hr : r ∈ table) :
    table.filter (fun x => x.slug = r.slug) = [r] := by
  induction table with
  | nil => simp at hr
  | cons a l ih =>
    rw [UniqueSlugs, List.pairwise_cons] at hu
    rcases List.mem_cons.mp hr with rfl | hrl
    · have hnil : l.filter (fun x => x.slug = r.slug) = [] := by
        refine List.filter_eq_nil_iff.mpr fun b hb => ?_
        simpa using (hu.1 b hb).symm
      simp [List.filter_cons, hnil]
    · have hne : a.slug ≠ r.slug := hu.1 r hrl
      simp [List.filter_cons, hne, ih hu.2 hrl]

theorem findBySlug_of_mem {table : List Row} {r : Row}
    (hu : UniqueSlugs table) (hr : r ∈ table) :
    findBySlug table r.slug = some r := by
  rw [findBySlug, filter_slug_of_unique hu hr]
  rfl

theorem countP_slug_le_one {table : List Row} (hu : UniqueSlugs table) (slug : String) :
    table.countP (fun r => r.slug = slug) ≤ 1 := by
  induction table with
  | nil => simp
  | cons a l ih =>
    rw [UniqueSlugs, List.pairwise_cons] at hu
    by_cases ha : a.slug = slug
    · have hz : l.countP (fun r => r.slug = slug) = 0 := by
        refine List.countP_eq_zero.mpr fun b hb => ?_
        have := hu.1 b hb
        simp only [decide_eq_true_eq]
        intro hbs
        exact this (ha.trans hbs.symm)
      simp [List.countP_cons, ha, hz]
    · simpa [List.countP_cons, ha] using ih hu.2

theorem activeCount_map_activateStep (table : List Row) (slug : String) :
    activeCount (table.map (activateStep slug)) = table.countP (fun r => r.slug = slug) := by
  rw [activeCount, List.countP_map]
  refine List.countP_congr fun r _ => ?_
  by_cases hs : r.slug = slug
  · simp [Function.comp, activateStep, hs]
  · by_cases ha : r.status = Status.active
    · simp [Function.comp, activateStep, hs, ha]
    · simp [Function.comp, activateStep, hs, ha]

theorem uniqueSlugs_map_activateStep {table : List Row} (hu : UniqueSlugs table)
    (slug : String) : UniqueSlugs (table.map (activateStep slug)) := by
  rw [UniqueSlugs, List.pairwise_map]
  refine hu.imp fun h => ?_
  simpa [activateStep_slug] using h

/-- One activation call preserves slug uniqueness and the single-active
bound. -/
theorem activate_step_invariant {table : List Row} (hu : UniqueSlugs table)
    (h1 : activeCount table ≤ 1) (slug : String) :
    UniqueSlugs (activateSeasonTx table slug).1 ∧
      activeCount (activateSeasonTx table slug).1 ≤ 1 := by
  rcases hf : findBySlug table slug with _ | t
  · rw [activate_eq_of_not_found table slug hf]
    exact ⟨hu, h1⟩
  · by_cases hc : t.status = Status.closed
    · rw [activate_eq_of_closed table slug t hf hc]
      exact ⟨hu, h1⟩
    · rw [activate_found_ok table slug t hf hc]
      refine ⟨uniqueSlugs_map_activateStep hu slug, ?_⟩
      rw [activeCount_map_activateStep]
      exact countP_slug_le_one hu slug

/-- Run a sequence of activation calls, threading the table through. -/
def runActivations (table : List Row) (slugs : List String) : List Row :=
  slugs.foldl (fun t s => (activateSeasonTx t s).1) table

/-- C1: Single-active invariant.  Starting from a table with unique slugs
and at most one `active` row, every sequence of `activateSeasonTx` calls
leaves at most one season `active` after each call completes (every
prefix of calls is itself such a sequence): the demote update clears all
other `active` rows before the promote update activates the target. -/
theorem single_active_invariant (table : List Row) (hu : UniqueSlugs table)
    (h1 : activeCount table ≤ 1) (slugs : List String) :
    UniqueSlugs (runActivations table slugs) ∧
      activeCount (runActivations table slugs) ≤ 1 := by
  induction slugs generalizing table with
  | nil => exact ⟨hu, h1⟩
  | cons s rest ih =>
    have hstep := activate_step_invariant hu h1 s
    exact ih _ hstep.1 hstep.2

/-- A draft season row used by concrete witnesses. -/
def rowA : Row :=
  ⟨1, "a", "A", none, 10, 20, Status.draft, 0, 0⟩

/-- An active season row used by concrete witnesses. -/
def rowB : Row :=
  ⟨2, "b", "B", some "desc", 15, 25, Status.active, 0, 0⟩

theorem findBySlug_map_activateStep (table : List Row) (s q : String) :
    findBySlug (table.map (activateStep s)) q = (findBySlug table q).map (activateStep s) := by
  unfold findBySlug
  rw [List.filter_map, List.head?_map]
  have hfe : table.filter ((fun r => decide (r.slug = q)) ∘ activateStep s) =
      table.filter fun r => decide (r.slug = q) := by
    refine List.filter_congr fun r _ => ?_
    simp [Function.comp, activateStep_slug]
  rw [hfe]

theorem activateStep_not_closed (s : String) (r : Row)
    (h : (activateStep s r).status = Status.closed) : r.status = Status.closed := by
  unfold activateStep at h
  split at h
  · simp at h
  · split at h
    · simp at h
    · exact h

/-- C2: Demotion without auto-close.  With unique slugs, if `A` is
`active`, `B` is a different season that is not `closed`, then
`activateSeasonTx(B.slug)` reports `{ ok: true }`, leaves `A` with status
`draft` (never `closed`), sets `B` to `active`, and no row at any
position becomes `closed` that was not already `closed`. -/
theorem demotion_without_autoclose (table : List Row) (A B : Row)
    (hu : UniqueSlugs table) (hA : A ∈ table) (hAa : A.status = Status.active)
    (hB : B ∈ table) (hBnc : B.status ≠ Status.closed) (hne : A.slug ≠ B.slug) :
    (activateSeasonTx table B.slug).2 = ⟨true, none, none⟩ ∧
      findBySlug (activateSeasonTx table B.slug).1 A.slug =
        some { A with status := Status.draft } ∧
      findBySlug (activateSeasonTx table B.slug).1 B.slug =
        some { B with status := Status.active } ∧
      ∀ i : Fin (activateSeasonTx table B.slug).1.length,
        ((activateSeasonTx table B.slug).1.get i).status = Status.closed →
          ∀ hi : (i : Nat) < table.length, (table.get ⟨i, hi⟩).status = Status.closed := by
  have hfB : findBySlug table B.slug = some B := findBySlug_of_mem hu hB
  have hok := activate_found_ok table B.slug B hfB hBnc
  rw [hok]
  refine ⟨rfl, ?_, ?_, ?_⟩
  · rw [findBySlug_map_activateStep, findBySlug_of_mem hu hA]
    simp [activateStep, hne, hAa]
  · rw [findBySlug_map_activateStep, hfB]
    simp [activateStep]
  · intro i hcl hi
    rw [List.get_map] at hcl
    exact activateStep_not_closed _ _ hcl

theorem eq_of_mem_of_length_le_one {α : Type} {l : List α} {a b : α}
    (h : l.length ≤ 1) (ha : a ∈ l) (hb : b ∈ l) : a = b := by
  cases l with
  | nil => simp at ha
  | cons x xs =>
    have hx : xs = [] := by
      cases xs with
      | nil => rfl
      | cons y ys => simp at h
    subst hx
    simp at ha hb
    rw [ha, hb]

theorem row_with_status_self (r : Row) (s : Status) (h : r.status = s) :
    { r with status := s } = r := by
  cases r
  cases h
  rfl

/-- C5: Idempotent re-activation.  With unique slugs and the single-active
bound, activating the already-active season succeeds, leaves the whole
table unchanged, and the set of active seasons is exactly the target
itself. -/
theorem activate_idempotent (table : List Row) (slug : String) (t : Row)
    (hu : UniqueSlugs table) (h1 : activeCount table ≤ 1)
    (hf : findBySlug table slug = some t) (ht : t.status = Status.active) :
    activateSeasonTx table slug = (table, ⟨true, none, none⟩) ∧
      table.filter (fun r => r.status = Status.active) = [t] := by
  obtain ⟨htmem, htslug⟩ := findBySlug_mem hf
  have hlen : (table.filter (fun r => r.status = Status.active)).length ≤ 1 := by
    rw [← List.countP_eq_length_filter]
    exact h1
  have htf : t ∈ table.filter (fun r => r.status = Status.active) := by
    simp [List.mem_filter, htmem, ht]
  have hfix : ∀ r ∈ table, activateStep slug r = r := by
    intro r hr
    by_cases hs : r.slug = slug
    · have hrt : r = t := by
        have := filter_slug_of_unique hu hr
        have htin : t ∈ table.filter fun x => x.slug = r.slug := by
          simp [List.mem_filter, htmem, htslug, hs]
        rw [this] at htin
        exact (List.mem_singleton.mp htin).symm
      subst hrt
      unfold activateStep
      rw [if_pos hs]
      exact row_with_status_self r Status.active ht
    · have hra : r.status ≠ Status.active := by
        intro hra
        have hrf : r ∈ table.filter (fun x => x.status = Status.active) := by
          simp [List.mem_filter, hr, hra]
        have := eq_of_mem_of_length_le_one hlen hrf htf
        exact hs (by rw [this, htslug])
      unfold activateStep
      rw [if_neg hs, if_neg hra]
  have hmap : table.map (activateStep slug) = table := by
    rw [List.map_congr_left hfix]
    simp
  have hnc : t.status ≠ Status.closed := by rw [ht]; intro h; cases h
  refine ⟨?_, ?_⟩
  · rw [activate_found_ok table slug t hf hnc, hmap]
  · cases hft : table.filter (fun r => r.status = Status.active) with
    | nil => rw [hft] at htf; simp at htf
    | cons x xs =>
      rw [hft] at hlen htf
      have hxs : xs = [] := by
        cases xs with
        | nil => rfl
        | cons y ys => simp at hlen
      subst hxs
      simp at htf
      rw [htf]

theorem single_active_invariant_witness :
    UniqueSlugs [rowA, rowB] ∧ activeCount [rowA, rowB] ≤ 1 ∧
      activeCount (runActivations [rowA, rowB] ["a", "b", "a"]) ≤ 1 :=
  ⟨by unfold UniqueSlugs; decide, by decide,
    (single_active_invariant [rowA, rowB] (by unfold UniqueSlugs; decide) (by decide)
      ["a", "b", "a"]).2⟩

theorem demotion_without_autoclose_witness :
    (activateSeasonTx [rowA, rowB] "a").2 = ⟨true, none, none⟩ ∧
      findBySlug (activateSeasonTx [rowA, rowB] "a").1 "b" =
        some { rowB with status := Status.draft } ∧
      findBySlug (activateSeasonTx [rowA, rowB] "a").1 "a" =
        some { rowA with status := Status.active } := by
  have h := demotion_without_autoclose [rowA, rowB] rowB rowA
    (by unfold UniqueSlugs; decide) (by decide) (by decide) (by decide) (by decide) (by decide)
  exact ⟨h.1, h.2.1, h.2.2.1⟩

theorem activate_idempotent_witness :
    activateSeasonTx [rowA, rowB] "b" = ([rowA, rowB], ⟨true, none, none⟩) ∧
      List.filter (fun r => r.status = Status.active) [rowA, rowB] = [rowB] :=
  activate_idempotent [rowA, rowB] "b" rowB (by unfold UniqueSlugs; decide) (by decide)
    (by decide) (by decide)

/-- C6: Transactional failure.  If any statement from `begin` up to and
including the promote update throws during a reached execution point, the
transaction is rolled back — the table is exactly as before the call —
and the result is `{ ok: false, error: "tx_failed", detail }` carrying
the underlying message; and the call never reports `ok: true` without
`commit` having run. -/
theorem tx_failed_rollback (table : List Row) (slug : String) (fault : Option (Nat × String)) :
    (∀ k msg, fault = some (k, msg) → k ≤ 4 → reaches table slug k →
      activateSeasonTxF fault table slug =
        (table, ⟨false, some "tx_failed", some msg⟩, false)) ∧
      ((activateSeasonTxF fault table slug).2.1.ok = true →
        (activateSeasonTxF fault table slug).2.2 = true) := by
  constructor
  · intro k msg hfk hk hr
    subst hfk
    interval_cases k
    · simp [activateSeasonTxF, faultAt]
    · simp [activateSeasonTxF, faultAt]
    · rcases hr with hk1 | ⟨t, hft, hnc⟩
      · omega
      · simp [activateSeasonTxF, faultAt, hft, hnc]
    · rcases hr with hk1 | ⟨t, hft, hnc⟩
      · omega
      · simp [activateSeasonTxF, faultAt, hft, hnc]
    · rcases hr with hk1 | ⟨t, hft, hnc⟩
      · omega
      · simp [activateSeasonTxF, faultAt, hft, hnc]
  · unfold activateSeasonTxF
    (repeat' split) <;> simp

theorem tx_failed_rollback_witness :
    activateSeasonTxF (some (3, "boom")) [rowA, rowB] "a" =
      ([rowA, rowB], ⟨false, some "tx_failed", some "boom"⟩, false) :=
  (tx_failed_rollback [rowA, rowB] "a" (some (3, "boom"))).1 3 "boom" rfl (by decide)
    (Or.inr ⟨rowA, by decide, by decide⟩)

/-- A JavaScript value that can be `undefined`, `null`, or present. -/
inductive JVal (α : Type) where
  | undef
  | null
  | val (a : α)
deriving DecidableEq, Repr

/-- The JS loose check `x != null`: false exactly for `null` and
`undefined`. -/
def notNullish {α : Type} : JVal α → Bool
  | JVal.undef => false
  | JVal.null => false
  | JVal.val _ => true

/-- The JS strict check `x !== undefined`. -/
def notUndefined {α : Type} : JVal α → Bool
  | JVal.undef => false
  | _ => true

/-- The patch request object handed to `patchSeasonBySlug`. -/
structure PatchReq where
  name : JVal String
  description : JVal String
  startAt : JVal Int
  endAt : JVal Int
deriving DecidableEq, Repr

/-- One `column = ?` entry of the SET list built by `patchSeasonBySlug`.
`description` carries the pushed JS value, which may be `null`. -/
inductive ColSet where
  | name (v : String)
  | description (v : Option String)
  | startAt (v : Int)
  | endAt (v : Int)
deriving DecidableEq, Repr

/-- The SET-list builder of `patchSeasonBySlug`: `name`, `startAt`,
`endAt` are pushed under `!= null`, `description` under `!== undefined`
(so an explicit `null` description is pushed as SQL NULL). -/
def buildSets (p : PatchReq) : List ColSet :=
  (match p.name with | JVal.val s => [ColSet.name s] | _ => []) ++
  (match p.description with
    | JVal.undef => []
    | JVal.null => [ColSet.description none]
    | JVal.val s => [ColSet.description (some s)]) ++
  (match p.startAt with | JVal.val v => [ColSet.startAt v] | _ => []) ++
  (match p.endAt with | JVal.val v => [ColSet.endAt v] | _ => [])

/-- Apply one SET entry to a row. -/
def applySet (r : Row) : ColSet → Row
  | ColSet.name v => { r with name := v }
  | ColSet.description v => { r with description := v }
  | ColSet.startAt v => { r with startAt := v }
  | ColSet.endAt v => { r with endAt := v }

/-- Apply a SET list left to right. -/
def applySets (sets : List ColSet) (r : Row) : Row :=
  sets.foldl applySet r

/-- Result of a `patchSeasonBySlug` call: the affected-row count it
returns, the table afterwards, and whether any storage statement ran. -/
structure PatchOutcome where
  affected : Nat
  table : List Row
  storageCalled : Bool
deriving DecidableEq, Repr

/-- `patchSeasonBySlug(slug, patch)`: build the SET list from the present
fields; with an empty list return 0 without touching storage; otherwise
run `UPDATE seasons SET ... WHERE slug = ?`.  The storage-managed
`updated_at` column (spec: creation/update timestamps are
storage-managed; the seasons DDL itself is not under src/) is modelled by
stamping updated rows with `now`. -/
def patchSeasonBySlug (table : List Row) (slug : String) (p : PatchReq) (now : Int) :
    PatchOutcome :=
  let sets := buildSets p
  if sets.isEmpty then ⟨0, table, false⟩
  else
    ⟨table.countP fun r => r.slug = slug,
     table.map fun r => if r.slug = slug then { applySets sets r with updatedAt := now } else r,
     true⟩

/-- The presence rules as the spec states them, per field: `name`,
`startAt`, `endAt` apply only when neither `null` nor `undefined`;
`description` applies whenever it is not `undefined`, so an explicit
`null` clears it. -/
def patchRuleRow (p : PatchReq) (now : Int) (r : Row) : Row :=
  { r with
    name := match p.name with | JVal.val s => s | _ => r.name
    description := match p.description with
      | JVal.undef => r.description
      | JVal.null => none
      | JVal.val s => some s
    startAt := match p.startAt with | JVal.val v => v | _ => r.startAt
    endAt := match p.endAt with | JVal.val v => v | _ => r.endAt
    updatedAt := now }

/-- C7: Field presence rules of `patchSeasonBySlug`.  Storage is touched
exactly when some field passes its presence check — `!= null` for
`name`, `startAt`, `endAt`, but `!== undefined` for `description` — and
in that case every matched row is rewritten by exactly those rules, so an
explicit `null` description clears the stored description while a `null`
name, start, or end is ignored. -/
theorem patch_presence_rules (table : List Row) (slug : String) (p : PatchReq) (now : Int) :
    (patchSeasonBySlug table slug p now).storageCalled =
        (notNullish p.name || notUndefined p.description ||
          notNullish p.startAt || notNullish p.endAt) ∧
      (patchSeasonBySlug table slug p now).table =
        (if notNullish p.name || notUndefined p.description ||
            notNullish p.startAt || notNullish p.endAt then
          table.map fun r => if r.slug = slug then patchRuleRow p now r else r
        else table) := by
  obtain ⟨n, d, sa, ea⟩ := p
  cases n <;> cases d <;> cases sa <;> cases ea <;>
    simp [patchSeasonBySlug, buildSets, applySets, applySet, patchRuleRow,
      notNullish, notUndefined]

/-- C8: Patch no-op.  When no field passes its presence check,
`patchSeasonBySlug` returns an affected count of 0, performs no storage
call, and the table — including every `updated_at` — is unchanged. -/
theorem patch_noop (table : List Row) (slug : String) (p : PatchReq) (now : Int)
    (hn : notNullish p.name = false) (hd : notUndefined p.description = false)
    (hs : notNullish p.startAt = false) (he : notNullish p.endAt = false) :
    patchSeasonBySlug table slug p now = ⟨0, table, false⟩ := by
  obtain ⟨n, d, sa, ea⟩ := p
  cases n <;> cases d <;> cases sa <;> cases ea <;>
    simp_all [patchSeasonBySlug, buildSets, notNullish, notUndefined]

theorem patch_noop_witness :
    patchSeasonBySlug [rowA] "a" ⟨JVal.null, JVal.undef, JVal.null, JVal.undef⟩ 99 =
      ⟨0, [rowA], false⟩ :=
  patch_noop [rowA] "a" ⟨JVal.null, JVal.undef, JVal.null, JVal.undef⟩ 99 rfl rfl rfl rfl

/-- The comparator induced by `ORDER BY start_at DESC, id DESC`: `a` may
come before `b` iff `a` has the later start, or equal starts and the
larger (newer-created) id. -/
def seasonOrd (a b : Row) : Bool :=
  b.startAt < a.startAt || (a.startAt = b.startAt && b.id ≤ a.id)

/-- `listSeasons()`:
`SELECT ... FROM seasons ORDER BY start_at DESC, id DESC`. -/
def listSeasons (table : List Row) : List Row :=
  table.mergeSort seasonOrd

/-- `getSeasonBySlug(slug)`: same `WHERE slug = ? LIMIT 1` / `rows[0] ?? null`
shape as the target read of `activateSeasonTx`. -/
def getSeasonBySlug (table : List Row) (slug : String) : Option Row :=
  findBySlug table slug

/-- `getActiveSeason()`:
`SELECT ... WHERE status = 'active' LIMIT 1` then `rows[0] ?? null`. -/
def getActiveSeason (table : List Row) : Option Row :=
  (table.filter fun r => r.status = Status.active).head?

theorem seasonOrd_iff (a b : Row) :
    seasonOrd a b = true ↔ b.startAt < a.startAt ∨ (a.startAt = b.startAt ∧ b.id ≤ a.id) := by
  simp [seasonOrd]

theorem seasonOrd_trans (a b c : Row) (hab : seasonOrd a b = true)
    (hbc : seasonOrd b c = true) : seasonOrd a c = true := by
  rw [seasonOrd_iff] at hab hbc ⊢
  rcases hab with h1 | ⟨h1, h1'⟩ <;> rcases hbc with h2 | ⟨h2, h2'⟩
  · exact Or.inl (lt_trans h2 h1)
  · exact Or.inl (by omega)
  · exact Or.inl (by omega)
  · exact Or.inr ⟨by omega, by omega⟩

theorem seasonOrd_total (a b : Row) : (seasonOrd a b || seasonOrd b a) = true := by
  simp only [Bool.or_eq_true, seasonOrd_iff]
  omega

/-- C9: `listSeasons` returns all season rows (a permutation of the
table) ordered by start timestamp descending with ties broken by id
descending, and `getSeasonBySlug` / `getActiveSeason` return `null`
rather than an error when no matching row exists. -/
theorem list_and_lookups (table : List Row) (slug : String) :
    (listSeasons table).Perm table ∧
      (listSeasons table).Pairwise
        (fun a b => b.startAt < a.startAt ∨ (a.startAt = b.startAt ∧ b.id ≤ a.id)) ∧
      ((∀ r ∈ table, r.slug ≠ slug) → getSeasonBySlug table slug = none) ∧
      ((∀ r ∈ table, r.status ≠ Status.active) → getActiveSeason table = none) := by
  refine ⟨List.mergeSort_perm table seasonOrd, ?_, ?_, ?_⟩
  · have hs := List.sorted_mergeSort seasonOrd_trans seasonOrd_total table
    exact hs.imp fun h => (seasonOrd_iff _ _).mp h
  · intro h
    rw [getSeasonBySlug, findBySlug, List.filter_eq_nil_iff.mpr fun r hr => by simp [h r hr]]
    rfl
  · intro h
    rw [getActiveSeason, List.filter_eq_nil_iff.mpr fun r hr => by simp [h r hr]]
    rfl

theorem list_and_lookups_witness :
    getSeasonBySlug [rowA, rowC] "zzz" = none ∧ getActiveSeason [rowA, rowC] = none :=
  ⟨(list_and_lookups [rowA, rowC] "zzz").2.2.1 (by decide),
    (list_and_lookups [rowA, rowC] "zzz").2.2.2 (by decide)⟩

/-- The ECMAScript whitespace set matched by `\s` and stripped by
`String.prototype.trim` (WhiteSpace and LineTerminator code points). -/
def isJsSpace (c : Char) : Bool :=
  c.toNat = 0x20 || (0x9 ≤ c.toNat && c.toNat ≤ 0xD) || c.toNat = 0xA0 ||
  c.toNat = 0x1680 || (0x2000 ≤ c.toNat && c.toNat ≤ 0x200A) ||
  c.toNat = 0x2028 || c.toNat = 0x2029 || c.toNat = 0x202F ||
  c.toNat = 0x205F || c.toNat = 0x3000 || c.toNat = 0xFEFF

/-- A character kept by `.replace(/[^a-z0-9-]/g, "")`: the class
`[a-z0-9-]`. -/
def isSlugChar (c : Char) : Bool :=
  (0x61 ≤ c.toNat && c.toNat ≤ 0x7A) || (0x30 ≤ c.toNat && c.toNat ≤ 0x39) ||
  c.toNat = 0x2D

/-- A lowercase ASCII letter or digit: the class `[a-z0-9]`. -/
def isLowerAlnum (c : Char) : Bool :=
  (0x61 ≤ c.toNat && c.toNat ≤ 0x7A) || (0x30 ≤ c.toNat && c.toNat ≤ 0x39)

/-- `String.prototype.toLowerCase()` per code point.  ECMAScript applies
the full Unicode lowercase mapping; the only code points whose lowercase
image meets the slug alphabet `[a-z0-9-]` are `A`..`Z` (to `a`..`z`),
U+0130 LATIN CAPITAL LETTER I WITH DOT ABOVE (full mapping: `i` followed
by combining dot U+0307) and U+212A KELVIN SIGN (to `k`).  Those are
mapped exactly; every other code point is kept as is, because its
lowercase image contains no slug character and is removed by the
following filter exactly as the code point itself would be. -/
def jsToLowerChar (c : Char) : List Char :=
  if 65 ≤ c.toNat ∧ c.toNat ≤ 90 then [Char.ofNat (c.toNat + 32)]
  else if c.toNat = 0x130 then [Char.ofNat 0x69, Char.ofNat 0x307]
  else if c.toNat = 0x212A then [Char.ofNat 0x6B]
  else [c]

/-- `String.prototype.trim`: drop whitespace from both ends. -/
def jsTrim (l : List Char) : List Char :=
  ((l.dropWhile isJsSpace).reverse.dropWhile isJsSpace).reverse

/-- Worker for `.replace(/\s+/g, "-")`: the flag records whether the
previous character was part of a whitespace run already replaced. -/
def spaceRunsAux : Bool → List Char → List Char
  | _, [] => []
  | prev, c :: cs =>
    if isJsSpace c then
      if prev then spaceRunsAux true cs else '-' :: spaceRunsAux true cs
    else c :: spaceRunsAux false cs

/-- `.replace(/\s+/g, "-")`: each maximal whitespace run becomes one
hyphen. -/
def replaceSpaceRuns (l : List Char) : List Char :=
  spaceRunsAux false l

/-- Worker for the hyphen-run replace (regex `-+` to `"-"`, global): the
flag records whether the previous character was part of a hyphen run
already collapsed. -/
def collapseAux : Bool → List Char → List Char
  | _, [] => []
  | prev, c :: cs =>
    if c = '-' then
      if prev then collapseAux true cs else '-' :: collapseAux true cs
    else c :: collapseAux false cs

/-- The hyphen-run replace (regex `-+` to `"-"`, global): each maximal
hyphen run becomes one hyphen. -/
def collapseHyphens (l : List Char) : List Char :=
  collapseAux false l

/-- Half of the edge strip (regex `^-|-$`, global): drop one leading
hyphen. -/
def stripLead (l : List Char) : List Char :=
  match l with
  | c :: rest => if c = '-' then rest else c :: rest
  | [] => []

/-- The edge strip (regex `^-|-$`, global): drop one leading and one
trailing hyphen. -/
def stripEdges (l : List Char) : List Char :=
  (stripLead (stripLead l).reverse).reverse

/-- The whole `normalizeSlug` chain over the character list:
trim, lowercase, whitespace runs to `-`, keep `[a-z0-9-]`, collapse `-`
runs, strip edge hyphens. -/
def normalizeSlugChars (l : List Char) : List Char :=
  stripEdges (collapseHyphens
    ((replaceSpaceRuns ((jsTrim l).flatMap jsToLowerChar)).filter isSlugChar))

/-- `normalizeSlug(input)` from `index.js`; `none` stands for JS `null`
or `undefined`, which `String(input || "")` turns into `""`. -/
def normalizeSlug (input : Option String) : String :=
  match input with
  | none => ""
  | some s => String.mk (normalizeSlugChars s.data)

/-- No two consecutive hyphens. -/
def NoDouble (l : List Char) : Prop :=
  l.Chain' fun a b => ¬(a = '-' ∧ b = '-')

theorem isSlugChar_hyphen : isSlugChar '-' = true := by decide

theorem not_isJsSpace_of_isSlugChar {c : Char} (h : isSlugChar c = true) :
    isJsSpace c = false := by
  simp only [isSlugChar, Bool.or_eq_true, Bool.and_eq_true, decide_eq_true_eq] at h
  rw [Bool.eq_false_iff]
  intro hsp
  simp only [isJsSpace, Bool.or_eq_true, Bool.and_eq_true, decide_eq_true_eq] at hsp
  omega

theorem jsToLowerChar_slug {c : Char} (h : isSlugChar c = true) :
    jsToLowerChar c = [c] := by
  simp only [isSlugChar, Bool.or_eq_true, Bool.and_eq_true, decide_eq_true_eq] at h
  unfold jsToLowerChar
  rw [if_neg (by omega), if_neg (by omega), if_neg (by omega)]

theorem flatMap_jsToLower_eq_self {l : List Char} (h : ∀ c ∈ l, isSlugChar c = true) :
    l.flatMap jsToLowerChar = l := by
  induction l with
  | nil => rfl
  | cons a l ih =>
    rw [List.flatMap_cons, jsToLowerChar_slug (h a (List.mem_cons_self a l))]
    rw [ih fun c hc => h c (List.mem_cons_of_mem a hc)]
    rfl

theorem isLowerAlnum_or_hyphen_of_isSlugChar {c : Char} (h : isSlugChar c = true) :
    isLowerAlnum c = true ∨ c = '-' := by
  by_cases hh : c.toNat = 45
  · refine Or.inr ?_
    apply Char.ext
    apply UInt32.ext
    simp only [Char.toNat] at hh
    rw [hh]
    rfl
  · refine Or.inl ?_
    simp only [isSlugChar, Bool.or_eq_true, Bool.and_eq_true, decide_eq_true_eq] at h
    simp only [isLowerAlnum, Bool.or_eq_true, Bool.and_eq_true, decide_eq_true_eq]
    omega

theorem dropWhile_eq_self_of_none {p : Char → Bool} {l : List Char}
    (h : ∀ c ∈ l, p c = false) : l.dropWhile p = l := by
  cases l with
  | nil => rfl
  | cons a l =>
    rw [List.dropWhile_cons, h a (List.mem_cons_self a l)]
    simp

theorem jsTrim_eq_self {l : List Char} (h : ∀ c ∈ l, isJsSpace c = false) : jsTrim l = l := by
  unfold jsTrim
  rw [dropWhile_eq_self_of_none h]
  rw [dropWhile_eq_self_of_none fun c hc => h c (by simpa using hc)]
  exact List.reverse_reverse l

theorem jsTrim_subset {l : List Char} {c : Char} (hc : c ∈ jsTrim l) : c ∈ l := by
  unfold jsTrim at hc
  rw [List.mem_reverse] at hc
  have h1 := (List.dropWhile_sublist isJsSpace).subset hc
  rw [List.mem_reverse] at h1
  exact (List.dropWhile_sublist isJsSpace).subset h1

theorem spaceRunsAux_cons_space {c : Char} (hc : isJsSpace c = true) (b : Bool)
    (cs : List Char) :
    spaceRunsAux b (c :: cs) =
      (if b then spaceRunsAux true cs else '-' :: spaceRunsAux true cs) := by
  simp [spaceRunsAux, hc]

theorem spaceRunsAux_cons_other {c : Char} (hc : isJsSpace c = false) (b : Bool)
    (cs : List Char) : spaceRunsAux b (c :: cs) = c :: spaceRunsAux false cs := by
  simp [spaceRunsAux, hc]

theorem spaceRunsAux_eq_self {l : List Char} (h : ∀ c ∈ l, isJsSpace c = false) (b : Bool) :
    spaceRunsAux b l = l := by
  induction l generalizing b with
  | nil => rfl
  | cons a l ih =>
    rw [spaceRunsAux_cons_other (h a (List.mem_cons_self a l))]
    rw [ih fun c hc => h c (List.mem_cons_of_mem a hc)]

theorem mem_spaceRunsAux {c : Char} {l : List Char} {b : Bool}
    (hc : c ∈ spaceRunsAux b l) : c = '-' ∨ c ∈ l := by
  induction l generalizing b with
  | nil => simp [spaceRunsAux] at hc
  | cons a l ih =>
    by_cases ha : isJsSpace a = true
    · rw [spaceRunsAux_cons_space ha] at hc
      by_cases hb : b = true
      · rw [hb, if_pos rfl] at hc
        rcases ih hc with h2 | h2
        · exact Or.inl h2
        · exact Or.inr (List.mem_cons_of_mem a h2)
      · rw [Bool.not_eq_true] at hb
        rw [hb] at hc
        simp only [Bool.false_eq_true, if_false, List.mem_cons] at hc
        rcases hc with h2 | h2
        · exact Or.inl h2
        · rcases ih h2 with h3 | h3
          · exact Or.inl h3
          · exact Or.inr (List.mem_cons_of_mem a h3)
    · rw [Bool.not_eq_true] at ha
      rw [spaceRunsAux_cons_other ha] at hc
      rcases List.mem_cons.mp hc with h2 | h2
      · exact Or.inr (by simp [h2])
      · rcases ih h2 with h3 | h3
        · exact Or.inl h3
        · exact Or.inr (List.mem_cons_of_mem a h3)

theorem collapseAux_cons_hyphen (b : Bool) (cs : List Char) :
    collapseAux b ('-' :: cs) =
      (if b then collapseAux true cs else '-' :: collapseAux true cs) := by
  simp [collapseAux]

theorem collapseAux_cons_other {c : Char} (hc : c ≠ '-') (b : Bool) (cs : List Char) :
    collapseAux b (c :: cs) = c :: collapseAux false cs := by
  simp [collapseAux, hc]

theorem mem_collapseAux {c : Char} {l : List Char} {b : Bool}
    (hc : c ∈ collapseAux b l) : c = '-' ∨ c ∈ l := by
  induction l generalizing b with
  | nil => simp [collapseAux] at hc
  | cons a l ih =>
    by_cases ha : a = '-'
    · subst ha
      rw [collapseAux_cons_hyphen] at hc
      by_cases hb : b = true
      · rw [hb, if_pos rfl] at hc
        rcases ih hc with h2 | h2
        · exact Or.inl h2
        · exact Or.inr (List.mem_cons_of_mem _ h2)
      · rw [Bool.not_eq_true] at hb
        rw [hb] at hc
        simp only [Bool.false_eq_true, if_false, List.mem_cons] at hc
        rcases hc with h2 | h2
        · exact Or.inl h2
        · rcases ih h2 with h3 | h3
          · exact Or.inl h3
          · exact Or.inr (List.mem_cons_of_mem _ h3)
    · rw [collapseAux_cons_other ha] at hc
      rcases List.mem_cons.mp hc with h2 | h2
      · exact Or.inr (by simp [h2])
      · rcases ih h2 with h3 | h3
        · exact Or.inl h3
        · exact Or.inr (List.mem_cons_of_mem a h3)

theorem collapseAux_chain (l : List Char) (b : Bool) :
    NoDouble (collapseAux b l) ∧
      (b = true → (collapseAux b l).head? ≠ some '-') := by
  induction l generalizing b with
  | nil => exact ⟨List.chain'_nil, fun _ => by simp [collapseAux]⟩
  | cons a l ih =>
    by_cases ha : a = '-'
    · subst ha
      rw [collapseAux_cons_hyphen]
      by_cases hb : b = true
      · rw [hb, if_pos rfl]
        exact ⟨(ih true).1, fun _ => (ih true).2 rfl⟩
      · rw [Bool.not_eq_true] at hb
        rw [hb]
        simp only [Bool.false_eq_true, if_false]
        constructor
        · rw [NoDouble, List.chain'_cons']
          refine ⟨?_, (ih true).1⟩
          intro y hy hcon
          have hhd : (collapseAux true l).head? = some y := hy
          rw [hcon.2] at hhd
          exact (ih true).2 rfl hhd
        · intro hcon
          cases hcon
    · rw [collapseAux_cons_other ha]
      constructor
      · rw [NoDouble, List.chain'_cons']
        exact ⟨fun y _ hcon => ha hcon.1, (ih false).1⟩
      · intro _
        simp only [List.head?_cons, ne_eq, Option.some.injEq]
        exact ha

theorem collapseAux_eq_self {l : List Char} (hch : NoDouble l) :
    ∀ (b : Bool), (b = true → l.head? ≠ some '-') → collapseAux b l = l := by
  induction l with
  | nil => intro b _; rfl
  | cons a l ih =>
    intro b hb
    rw [NoDouble, List.chain'_cons'] at hch
    by_cases ha : a = '-'
    · have hbf : b = false := by
        cases b with
        | false => rfl
        | true => exact absurd (by rw [ha]; rfl) (hb rfl)
      subst hbf
      subst ha
      rw [collapseAux_cons_hyphen]
      simp only [Bool.false_eq_true, if_false]
      rw [ih hch.2]
      intro _ hhd
      rcases hl : l.head? with _ | y
      · rw [hl] at hhd; cases hhd
      · rw [hl] at hhd
        have hy := hch.1 y (by rw [hl]; rfl)
        injection hhd with hy2
        exact hy ⟨rfl, hy2⟩
    · rw [collapseAux_cons_other ha]
      rw [ih hch.2]
      intro hcon
      cases hcon

theorem stripLead_nil : stripLead [] = [] := rfl

theorem stripLead_cons (a : Char) (l : List Char) :
    stripLead (a :: l) = if a = '-' then l else a :: l := rfl

theorem stripLead_subset {l : List Char} {c : Char} (hc : c ∈ stripLead l) : c ∈ l := by
  cases l with
  | nil => exact hc
  | cons a l =>
    rw [stripLead_cons] at hc
    by_cases ha : a = '-'
    · rw [if_pos ha] at hc
      exact List.mem_cons_of_mem a hc
    · rwa [if_neg ha] at hc

theorem stripLead_chain {l : List Char} (h : NoDouble l) : NoDouble (stripLead l) := by
  cases l with
  | nil => exact h
  | cons a l =>
    rw [stripLead_cons]
    by_cases ha : a = '-'
    · rw [if_pos ha]
      exact (List.chain'_cons'.mp h).2
    · rwa [if_neg ha]

theorem stripLead_head {l : List Char} (h : NoDouble l) : (stripLead l).head? ≠ some '-' := by
  cases l with
  | nil => simp [stripLead_nil]
  | cons a l =>
    rw [stripLead_cons]
    by_cases ha : a = '-'
    · rw [if_pos ha]
      rcases l with _ | ⟨y, l2⟩
      · simp
      · have hy := (List.chain'_cons'.mp h).1 y rfl
        simp only [List.head?_cons, ne_eq, Option.some.injEq]
        intro hcon
        exact hy ⟨ha, hcon⟩
    · rw [if_neg ha]
      simp only [List.head?_cons, ne_eq, Option.some.injEq]
      exact ha

theorem stripLead_eq_self {l : List Char} (h : l.head? ≠ some '-') : stripLead l = l := by
  cases l with
  | nil => rfl
  | cons a l =>
    rw [stripLead_cons, if_neg]
    intro ha
    exact h (by rw [ha]; rfl)

theorem stripLead_getLast {l : List Char} (h : l.getLast? ≠ some '-') :
    (stripLead l).getLast? ≠ some '-' := by
  cases l with
  | nil => simpa [stripLead_nil] using h
  | cons a l =>
    rw [stripLead_cons]
    by_cases ha : a = '-'
    · rw [if_pos ha]
      rcases l with _ | ⟨y, l2⟩
      · simp
      · rw [← List.getLast?_cons_cons]
        exact h
    · rwa [if_neg ha]

theorem noDouble_reverse {l : List Char} (h : NoDouble l) : NoDouble l.reverse := by
  rw [NoDouble, List.chain'_reverse]
  exact List.Chain'.imp (fun a b hab h2 => hab ⟨h2.2, h2.1⟩) h

theorem stripEdges_subset {l : List Char} {c : Char} (hc : c ∈ stripEdges l) : c ∈ l := by
  unfold stripEdges at hc
  rw [List.mem_reverse] at hc
  have h1 := stripLead_subset hc
  rw [List.mem_reverse] at h1
  exact stripLead_subset h1

theorem stripEdges_chain {l : List Char} (h : NoDouble l) : NoDouble (stripEdges l) := by
  unfold stripEdges
  exact noDouble_reverse (stripLead_chain (noDouble_reverse (stripLead_chain h)))

theorem stripEdges_getLast {l : List Char} (h : NoDouble l) :
    (stripEdges l).getLast? ≠ some '-' := by
  unfold stripEdges
  rw [List.getLast?_reverse]
  exact stripLead_head (noDouble_reverse (stripLead_chain h))

theorem stripEdges_head {l : List Char} (h : NoDouble l) :
    (stripEdges l).head? ≠ some '-' := by
  unfold stripEdges
  rw [List.head?_reverse]
  apply stripLead_getLast
  rw [List.getLast?_reverse]
  exact stripLead_head h

theorem stripEdges_eq_self {l : List Char} (hh : l.head? ≠ some '-')
    (hl : l.getLast? ≠ some '-') : stripEdges l = l := by
  unfold stripEdges
  rw [stripLead_eq_self hh]
  rw [stripLead_eq_self (by rw [List.head?_reverse]; exact hl)]
  exact List.reverse_reverse l

theorem normalizeSlugChars_subset_slug {l : List Char} :
    ∀ c ∈ normalizeSlugChars l, isSlugChar c = true := by
  intro c hc
  unfold normalizeSlugChars at hc
  have hc2 := stripEdges_subset hc
  unfold collapseHyphens at hc2
  rcases mem_collapseAux hc2 with h | h
  · rw [h]
    exact isSlugChar_hyphen
  · exact (List.mem_filter.mp h).2

theorem normalizeSlugChars_noDouble (l : List Char) : NoDouble (normalizeSlugChars l) := by
  unfold normalizeSlugChars collapseHyphens
  exact stripEdges_chain (collapseAux_chain _ false).1

theorem normalizeSlugChars_head (l : List Char) :
    (normalizeSlugChars l).head? ≠ some '-' := by
  unfold normalizeSlugChars collapseHyphens
  exact stripEdges_head (collapseAux_chain _ false).1

theorem normalizeSlugChars_getLast (l : List Char) :
    (normalizeSlugChars l).getLast? ≠ some '-' := by
  unfold normalizeSlugChars collapseHyphens
  exact stripEdges_getLast (collapseAux_chain _ false).1

theorem normalizeSlugChars_fixed {t : List Char}
    (hslug : ∀ c ∈ t, isSlugChar c = true) (hnd : NoDouble t)
    (hh : t.head? ≠ some '-') (hl : t.getLast? ≠ some '-') :
    normalizeSlugChars t = t := by
  have hns : ∀ c ∈ t, isJsSpace c = false := fun c hc =>
    not_isJsSpace_of_isSlugChar (hslug c hc)
  unfold normalizeSlugChars
  rw [jsTrim_eq_self hns]
  rw [flatMap_jsToLower_eq_self hslug]
  unfold replaceSpaceRuns
  rw [spaceRunsAux_eq_self hns false]
  rw [List.filter_eq_self.mpr hslug]
  unfold collapseHyphens
  rw [collapseAux_eq_self hnd false fun hcon => nomatch hcon]
  exact stripEdges_eq_self hh hl

theorem normalizeSlugChars_idem (l : List Char) :
    normalizeSlugChars (normalizeSlugChars l) = normalizeSlugChars l :=
  normalizeSlugChars_fixed normalizeSlugChars_subset_slug (normalizeSlugChars_noDouble l)
    (normalizeSlugChars_head l) (normalizeSlugChars_getLast l)

theorem collapseAux_true_all {l : List Char} (h : ∀ c ∈ l, c = '-') :
    collapseAux true l = [] := by
  induction l with
  | nil => rfl
  | cons a l ih =>
    rw [h a (List.mem_cons_self a l), collapseAux_cons_hyphen, if_pos rfl]
    exact ih fun c hc => h c (List.mem_cons_of_mem a hc)

theorem stripEdges_collapse_all {l : List Char} (h : ∀ c ∈ l, c = '-') :
    stripEdges (collapseHyphens l) = [] := by
  unfold collapseHyphens
  cases l with
  | nil => rfl
  | cons a l =>
    rw [h a (List.mem_cons_self a l), collapseAux_cons_hyphen]
    rw [if_neg (fun hcon => nomatch hcon)]
    rw [collapseAux_true_all fun c hc => h c (List.mem_cons_of_mem a hc)]
    decide

theorem normalizeSlugChars_all_invalid {l : List Char}
    (h : ∀ c ∈ l, ∀ d ∈ jsToLowerChar c, isLowerAlnum d = false) :
    normalizeSlugChars l = [] := by
  unfold normalizeSlugChars
  apply stripEdges_collapse_all
  intro c hc
  have hcs := (List.mem_filter.mp hc).2
  have hcm := (List.mem_filter.mp hc).1
  unfold replaceSpaceRuns at hcm
  rcases mem_spaceRunsAux hcm with h1 | h1
  · exact h1
  · rcases List.mem_flatMap.mp h1 with ⟨c0, hc0, hcd⟩
    rcases isLowerAlnum_or_hyphen_of_isSlugChar hcs with h2 | h2
    · rw [h c0 (jsTrim_subset hc0) c hcd] at h2
      cases h2
    · exact h2

/-- C10: `normalizeSlug` is idempotent; its output contains only
lowercase ASCII letters, digits and hyphens, never two consecutive
hyphens and never a leading or trailing hyphen; and `null`/`undefined`
input, as well as all-invalid input (every character's Unicode lowercase
image is free of letters and digits), yields the empty string. -/
theorem normalizeSlug_spec (s : String) :
    normalizeSlug (some (normalizeSlug (some s))) = normalizeSlug (some s) ∧
      (∀ c ∈ (normalizeSlug (some s)).data, isSlugChar c = true) ∧
      NoDouble (normalizeSlug (some s)).data ∧
      (normalizeSlug (some s)).data.head? ≠ some '-' ∧
      (normalizeSlug (some s)).data.getLast? ≠ some '-' ∧
      normalizeSlug none = "" ∧
      ((∀ c ∈ s.data, ∀ d ∈ jsToLowerChar c, isLowerAlnum d = false) →
        normalizeSlug (some s) = "") := by
  refine ⟨?_, ?_, ?_, ?_, ?_, rfl, ?_⟩
  · show String.mk (normalizeSlugChars (normalizeSlugChars s.data)) =
      String.mk (normalizeSlugChars s.data)
    rw [normalizeSlugChars_idem]
  · exact normalizeSlugChars_subset_slug
  · exact normalizeSlugChars_noDouble s.data
  · exact normalizeSlugChars_head s.data
  · exact normalizeSlugChars_getLast s.data
  · intro h
    show String.mk (normalizeSlugChars s.data) = ""
    rw [normalizeSlugChars_all_invalid h]

theorem normalizeSlug_spec_witness :
    normalizeSlug (some "!?") = "" :=
  (normalizeSlug_spec "!?").2.2.2.2.2.2 (by decide)

/-- The Unicode case mappings whose image reaches the slug alphabet are
honoured: KELVIN SIGN lowercases to `k`, and dotted capital I to `i`
(its combining dot is then removed by the filter). -/
theorem normalizeSlug_unicode_mappings :
    normalizeSlug (some "\u212A") = "k" ∧ normalizeSlug (some "\u0130") = "i" := by
  constructor <;> decide

end HscAuth
